import Mathlib

set_option maxHeartbeats 1000000
set_option maxRecDepth 100000

namespace CacheSystem

/-! Shallow embedding of the cache-system repository (handler.go, persistence.go).
Go strings and file contents are byte sequences, modelled as `List Nat` with
byte values; Go's `time.Time` expiry is modelled as `Option Int` (absolute
milliseconds, `none` for the zero time), and `time.Now()` is passed in
explicitly as `now : Int`. -/

/-- Byte strings: Go strings and file contents are sequences of bytes. -/
abbrev Bytes := List Nat

/-- The struct `KeyValue` from handler.go: a value plus an expiry
(`none` models the zero `time.Time`, i.e. "no expiry"). -/
structure KeyValue where
  value : Bytes
  expiry : Option Int
deriving DecidableEq, Repr

/-- The in-memory store `SETs : map[string]KeyValue`, modelled as an
association list (Go map iteration order becomes list order). -/
abbrev Store := List (Bytes × KeyValue)

/-- The transient mapping returned by `readRDBFile`: key to value bytes. -/
abbrev Assoc := List (Bytes × Bytes)

/-- Association-list lookup (Go map read, first match). -/
def alook {α : Type} : List (Bytes × α) → Bytes → Option α
  | [], _ => none
  | (k, v) :: rest, key => if k = key then some v else alook rest key

/-- Association-list insert-or-replace (Go map assignment `m[k] = v`). -/
def aset {α : Type} : List (Bytes × α) → Bytes → α → List (Bytes × α)
  | [], key, v => [(key, v)]
  | (k, w) :: rest, key, v =>
      if k = key then (key, v) :: rest else (k, w) :: aset rest key v

/-- Association-list delete (Go `delete(m, k)`). -/
def adel {α : Type} (l : List (Bytes × α)) (key : Bytes) : List (Bytes × α) :=
  l.filter (fun p => p.1 ≠ key)

/-! ### Byte constants from persistence.go -/

def STRING_TYPE : Nat := 0x00
def METADATA_SECTION : Nat := 0xFA
def DB_INDEX : Nat := 0x00
def DB_SECTION : Nat := 0xFE
def HASHTABLE_SIZE : Nat := 0xFB
def KEYVALUE_EXPIRY : Nat := 0xFC
def EOF_BYTE : Nat := 0xFF

/-- The bytes of `"REDIS0011"`. -/
def headerBytes : Bytes := [82, 69, 68, 73, 83, 48, 48, 49, 49]

/-- The bytes of `"redis-ver"`. -/
def redisVerKey : Bytes := [114, 101, 100, 105, 115, 45, 118, 101, 114]

/-- The bytes of `"7.2.0"`. -/
def redisVerVal : Bytes := [55, 46, 50, 46, 48]

/-- The bytes of `"redis-bits"`. -/
def redisBitsKey : Bytes := [114, 101, 100, 105, 115, 45, 98, 105, 116, 115]

/-- The bytes of `"OK"`. -/
def okBytes : Bytes := [79, 75]

/-- The bytes of `"px"`. -/
def pxBytes : Bytes := [112, 120]

/-- The bytes of `"*"`. -/
def starBytes : Bytes := [42]

/-- The bytes of `"ERR unable to read file"`. -/
def errUnableMsg : Bytes :=
  [69, 82, 82, 32, 117, 110, 97, 98, 108, 101, 32, 116, 111, 32, 114, 101,
   97, 100, 32, 102, 105, 108, 101]

/-- The bytes of `"ERR wrong number of arguments for 'set' command"`. -/
def errSetArityMsg : Bytes :=
  [69, 82, 82, 32, 119, 114, 111, 110, 103, 32, 110, 117, 109, 98, 101, 114,
   32, 111, 102, 32, 97, 114, 103, 117, 109, 101, 110, 116, 115, 32, 102,
   111, 114, 32, 39, 115, 101, 116, 39, 32, 99, 111, 109, 109, 97, 110, 100]

/-! ### Snapshot encoder (persistence.go, write side) -/

/-- `lengthEncoding`: one byte for lengths below 64, two bytes (top bits `01`)
below 16384, failure otherwise. `byte(x)` is `x % 256`. -/
def lengthEncoding (strLen : Nat) : Option Bytes :=
  if strLen < 2 ^ 6 then some [strLen % 256]
  else if strLen < 2 ^ 14 then some [((strLen >>> 8) ||| 0x40) % 256, strLen % 256]
  else none

/-- `stringEncoding`: length bytes followed by the raw bytes; on a length
error nothing is written (the caller ignores the returned error). -/
def stringEncoding (s : Bytes) : Bytes :=
  match lengthEncoding s.length with
  | none => []
  | some bs => bs ++ s

/-- `binary.LittleEndian.PutUint64`. -/
def putUint64LE (n : Nat) : Bytes :=
  [n % 256, n / 2 ^ 8 % 256, n / 2 ^ 16 % 256, n / 2 ^ 24 % 256,
   n / 2 ^ 32 % 256, n / 2 ^ 40 % 256, n / 2 ^ 48 % 256, n / 2 ^ 56 % 256]

/-- `binary.LittleEndian.Uint64` on an 8-byte buffer. -/
def getUint64LE (bs : Bytes) : Nat :=
  match bs with
  | [b0, b1, b2, b3, b4, b5, b6, b7] =>
      b0 + b1 * 2 ^ 8 + b2 * 2 ^ 16 + b3 * 2 ^ 24 + b4 * 2 ^ 32 +
        b5 * 2 ^ 40 + b6 * 2 ^ 48 + b7 * 2 ^ 56
  | _ => 0

/-- `timestampEncoding`: `uint64(expire.UnixMilli())` written little-endian
(the `uint64` cast of an `int64` is reduction modulo `2^64`). -/
def timestampEncoding (e : Int) : Bytes :=
  putUint64LE (e % (2 ^ 64 : Int)).toNat

/-- Reading a `uint64` back as Go's `int64(timestamp)`. -/
def int64OfUint64 (u : Nat) : Int :=
  if u < 2 ^ 63 then (u : Int) else (u : Int) - 2 ^ 64

/-- `writeKeyValue`: plain entries for a zero expiry, otherwise the expiry
marker, the 8-byte timestamp, and then the plain entry. -/
def writeKeyValue (key : Bytes) (value : KeyValue) : Bytes :=
  match value.expiry with
  | none => STRING_TYPE :: (stringEncoding key ++ stringEncoding value.value)
  | some e =>
      KEYVALUE_EXPIRY :: (timestampEncoding e ++
        (STRING_TYPE :: (stringEncoding key ++ stringEncoding value.value)))

/-- Concatenation of the encoded entries, in store order. -/
def encodeEntries : Store → Bytes
  | [] => []
  | (k, v) :: rest => writeKeyValue k v ++ encodeEntries rest

/-! CRC-64 (ECMA) as in Go's hash/crc64 with `crc64.MakeTable(crc64.ECMA)`:
reversed polynomial, init and xorout all-ones. -/

def crcPoly : Nat := 0xC96C5795D7870F42

def crcStep (c : Nat) : Nat :=
  if c % 2 = 1 then (c / 2) ^^^ crcPoly else c / 2

def crcTableEntry (i : Nat) : Nat := crcStep^[8] i

def crcUpdate (c b : Nat) : Nat :=
  crcTableEntry ((c ^^^ b) % 256) ^^^ (c / 256)

/-- `calculateCRC64Checksum`, minus the little-endian serialization. -/
def crc64go (bs : Bytes) : Nat :=
  let mask := 2 ^ 64 - 1
  (bs.foldl crcUpdate (0 ^^^ mask)) ^^^ mask

/-- All file bytes written by `initRDB` before the checksum. -/
def rdbBody (store : Store) : Bytes :=
  headerBytes ++
  (METADATA_SECTION :: (stringEncoding redisVerKey ++ stringEncoding redisVerVal)) ++
  (METADATA_SECTION :: (stringEncoding redisBitsKey ++ [0xc0, 0x40])) ++
  [DB_SECTION, DB_INDEX, HASHTABLE_SIZE, store.length % 256, 0x00] ++
  encodeEntries store ++
  [EOF_BYTE]

/-- `initRDB`: the full snapshot file — body, then the CRC-64 checksum of the
body (computed by re-reading the just-written file), little-endian. -/
def initRDB (store : Store) : Bytes :=
  rdbBody store ++ putUint64LE (crc64go (rdbBody store))

/-! ### Snapshot decoder (persistence.go, read side)

Each reader is a function `Bytes → Option (α × Bytes)` returning the parsed
value and the unread remainder; `none` models a read/format error. -/

/-- `reader.ReadByte()`. -/
def readByte : Bytes → Option (Nat × Bytes)
  | [] => none
  | b :: bs => some (b, bs)

/-- `io.ReadFull(reader, buf)` for a buffer of `n` bytes. -/
def readN : Nat → Bytes → Option (Bytes × Bytes)
  | 0, bs => some ([], bs)
  | _ + 1, [] => none
  | n + 1, b :: bs =>
      match readN n bs with
      | none => none
      | some (xs, r) => some (b :: xs, r)

/-- `verifyHeader`: read 9 bytes and compare with `"REDIS0011"`. -/
def verifyHeader (bs : Bytes) : Option (Unit × Bytes) :=
  match readN 9 bs with
  | none => none
  | some (h, r) => if h = headerBytes then some ((), r) else none

/-- `readLengthEncoded`: top two bits `00` mean the byte is the length, `01`
means a 14-bit length over two bytes, anything else is unsupported. -/
def readLengthEncoded (bs : Bytes) : Option (Nat × Bytes) :=
  match readByte bs with
  | none => none
  | some (firstByte, r) =>
      if firstByte >>> 6 = 0 then some (firstByte, r)
      else if firstByte >>> 6 = 1 then
        match readByte r with
        | none => none
        | some (secondByte, r2) =>
            some (((firstByte &&& 0x3F) <<< 8) ||| secondByte, r2)
      else none

/-- `readString`: a length encoding followed by that many raw bytes. -/
def readString (bs : Bytes) : Option (Bytes × Bytes) :=
  match readLengthEncoded bs with
  | none => none
  | some (length, r) =>
      match readN length r with
      | none => none
      | some (data, r2) => some (data, r2)

/-- `readTimestamp`: 8 bytes, little-endian, viewed through `int64`. -/
def readTimestamp (bs : Bytes) : Option (Int × Bytes) :=
  match readN 8 bs with
  | none => none
  | some (buffer, r) => some (int64OfUint64 (getUint64LE buffer), r)

/-- The shared tail of `readKeyValue`: check the string type byte, read the
key and the value. -/
def readStringEntry (typ : Nat) (r : Bytes) : Option ((Bytes × Bytes) × Bytes) :=
  if typ ≠ STRING_TYPE then none
  else
    match readString r with
    | none => none
    | some (key, r2) =>
        match readString r2 with
        | none => none
        | some (value, r3) => some ((key, value), r3)

/-- `readKeyValue`: an optional expiry marker plus timestamp, then a string
entry; an already-expired entry is read, discarded and reported as the pair
of empty strings. -/
def readKeyValue (now : Int) (bs : Bytes) : Option ((Bytes × Bytes) × Bytes) :=
  match readByte bs with
  | none => none
  | some (typ, r) =>
      if typ = KEYVALUE_EXPIRY then
        match readTimestamp r with
        | none => none
        | some (expiry, r2) =>
            if now > expiry then
              match readByte r2 with
              | none => none
              | some (typ2, r3) =>
                  if typ2 ≠ STRING_TYPE then none
                  else
                    match readString r3 with
                    | none => none
                    | some (_, r4) =>
                        match readString r4 with
                        | none => none
                        | some (_, r5) => some (([], []), r5)
            else
              match readByte r2 with
              | none => none
              | some (typ2, r3) => readStringEntry typ2 r3
      else readStringEntry typ r

/-- Metadata values: `"redis-ver"` decodes as a string, `"redis-bits"` as a
2-byte little-endian integer, anything else as a string. -/
inductive MetaVal where
  | s (v : Bytes)
  | u16 (v : Nat)
deriving DecidableEq, Repr

/-- `binary.LittleEndian.Uint16` on a 2-byte buffer. -/
def getUint16LE (bs : Bytes) : Nat :=
  match bs with
  | [b0, b1] => b0 + b1 * 2 ^ 8
  | _ => 0

/-- `readMetadata`, with explicit fuel (one unit per loop iteration; the Go
loop always consumes at least the marker byte per iteration, so fuel equal
to the input length plus one never runs out). -/
def readMetadataF : Nat → Bytes → Option (List (Bytes × MetaVal) × Bytes)
  | _, [] => none
  | 0, _ :: _ => none
  | fuel + 1, b :: bs =>
      if b = DB_SECTION then some ([], b :: bs)
      else if b ≠ METADATA_SECTION then none
      else
        match readString bs with
        | none => none
        | some (key, r1) =>
            if key = redisVerKey then
              match readString r1 with
              | none => none
              | some (v, r2) =>
                  match readMetadataF fuel r2 with
                  | none => none
                  | some (ms, r3) => some ((key, MetaVal.s v) :: ms, r3)
            else if key = redisBitsKey then
              match readN 2 r1 with
              | none => none
              | some (buf, r2) =>
                  match readMetadataF fuel r2 with
                  | none => none
                  | some (ms, r3) => some ((key, MetaVal.u16 (getUint16LE buf)) :: ms, r3)
            else
              match readString r1 with
              | none => none
              | some (v, r2) =>
                  match readMetadataF fuel r2 with
                  | none => none
                  | some (ms, r3) => some ((key, MetaVal.s v) :: ms, r3)

/-- The `for range int(kvCount)` loop of `readRDBFile`: read `n` entries,
skipping those whose reported key is empty. -/
def readEntriesF (now : Int) : Nat → Bytes → Assoc → Option (Assoc × Bytes)
  | 0, bs, acc => some (acc, bs)
  | n + 1, bs, acc =>
      match readKeyValue now bs with
      | none => none
      | some ((key, value), r) =>
          if key = [] then readEntriesF now n r acc
          else readEntriesF now n r (aset acc key value)

/-- The structural part of `readRDBFile`: everything up to and including the
EOF marker, returning the decoded mapping and the unread remainder. -/
def parseStruct (now : Int) (bytes : Bytes) : Option (Assoc × Bytes) :=
  match verifyHeader bytes with
  | none => none
  | some (_, r1) =>
      match readMetadataF (r1.length + 1) r1 with
      | none => none
      | some (_, r2) =>
          match readByte r2 with
          | none => none
          | some (b, r3) =>
              if b ≠ DB_SECTION then none
              else
                match readByte r3 with
                | none => none
                | some (_, r4) =>
                    match readByte r4 with
                    | none => none
                    | some (hashtableMarker, r5) =>
                        if hashtableMarker ≠ HASHTABLE_SIZE then none
                        else
                          match readByte r5 with
                          | none => none
                          | some (kvCount, r6) =>
                              match readByte r6 with
                              | none => none
                              | some (_, r7) =>
                                  match readEntriesF now kvCount r7 [] with
                                  | none => none
                                  | some (kvs, r8) =>
                                      match readByte r8 with
                                      | none => none
                                      | some (eofMarker, r9) =>
                                          if eofMarker ≠ EOF_BYTE then none
                                          else some (kvs, r9)

/-- `readRDBFile`: reject an empty file, parse the structure, then read the
trailing 8 checksum bytes (into memory only — never recomputed or compared). -/
def readRDBFile (now : Int) (bytes : Bytes) : Option Assoc :=
  if bytes.length = 0 then none
  else
    match parseStruct now bytes with
    | none => none
    | some (kvs, r9) =>
        match readN 8 r9 with
        | none => none
        | some (_, _) => some kvs

/-! ### Wire values and command handlers (handler.go)

The Go `Value` struct has a `typ` tag and zero-valued payload fields; field
access on an absent payload yields the zero value, exactly as in Go. A Go
runtime panic (out-of-range index) is modelled by an `Option`-valued handler
returning `none`. -/

/-- The Go `Value` struct (resp.go); unset fields hold Go zero values. -/
structure GoValue where
  typ : String
  str : Bytes
  bulk : Bytes
  array : List GoValue

/-- `Value{typ: "string", str: s}`. -/
def strValue (s : Bytes) : GoValue := ⟨"string", s, [], []⟩

/-- `Value{typ: "error", str: s}`. -/
def errValue (s : Bytes) : GoValue := ⟨"error", s, [], []⟩

/-- `Value{typ: "bulk", bulk: s}`. -/
def bulkValue (s : Bytes) : GoValue := ⟨"bulk", [], s, []⟩

/-- `Value{typ: "null"}`. -/
def nullValue : GoValue := ⟨"null", [], [], []⟩

/-- `Value{typ: "array", array: l}`. -/
def arrayValue (l : List GoValue) : GoValue := ⟨"array", [], [], l⟩

/-- Go's `strconv.Atoi` with the error ignored (`v, _ := strconv.Atoi(s)`):
the parsed integer, or 0 when `s` is not a well-formed decimal integer. -/
def goAtoi (s : Bytes) : Int :=
  let digits := fun (ds : Bytes) =>
    if ds = [] ∨ ¬ ds.all (fun d => 48 ≤ d ∧ d ≤ 57) then none
    else some (ds.foldl (fun acc d => acc * 10 + (d - 48)) (0 : Nat))
  match s with
  | 45 :: rest =>
      match digits rest with
      | none => (0 : Int)
      | some n => -(n : Int)
  | _ =>
      match digits s with
      | none => (0 : Int)
      | some n => (n : Int)

/-- `echo`: returns `args[0].bulk` — panics (`none`) when `args` is empty. -/
def echo (args : List GoValue) : Option GoValue :=
  match args.get? 0 with
  | none => none
  | some a0 => some (strValue a0.bulk)

/-- `set`: arity check, optional `px` expiry pair (accessing `args[3]`
panics when only three arguments are present), then the store writes. -/
def set (store : Store) (now : Int) (args : List GoValue) :
    Option (GoValue × Store) :=
  if args.length < 2 then some (errValue errSetArityMsg, store)
  else
    match args.get? 0, args.get? 1 with
    | some a0, some a1 =>
        let key := a0.bulk
        let value := a1.bulk
        if args.length > 2 then
          match args.get? 2, args.get? 3 with
          | some a2, some a3 =>
              let exKey := a2.bulk
              let v := goAtoi a3.bulk
              let exValue := if exKey = pxBytes then some (now + v) else none
              let store1 := aset store key { value := value, expiry := none }
              let store2 := aset store1 key { value := value, expiry := exValue }
              some (strValue okBytes, store2)
          | _, _ => none
        else
          some (strValue okBytes, aset store key { value := value, expiry := none })
    | _, _ => none

/-- The in-memory fallback of `get` (handler.go lines 98–110): empty value
means not found; a set, past expiry deletes the entry and reports null. -/
def getMem (store : Store) (now : Int) (key : Bytes) : GoValue × Store :=
  let val := (alook store key).getD { value := [], expiry := none }
  if val.value = [] then (nullValue, store)
  else
    match val.expiry with
    | some e =>
        if now > e then (nullValue, adel store key)
        else (bulkValue val.value, store)
    | none => (bulkValue val.value, store)

/-- `get` once the snapshot mapping has been decoded: snapshot values take
precedence when present and non-empty, otherwise fall back to memory. -/
def getWithData (data : Assoc) (store : Store) (now : Int) (key : Bytes) :
    GoValue × Store :=
  match alook data key with
  | some v => if v = [] then getMem store now key else (bulkValue v, store)
  | none => getMem store now key

/-- `get`: `args[0].bulk` (panics on no arguments), create the snapshot from
the current store when the file is absent (`writeOk` models whether the file
write succeeds), decode it, then apply the precedence rule. Returns the
reply, the store after any lazy-expiry deletion, and the file state. -/
def get (writeOk : Bool) (fs : Option Bytes) (store : Store) (now : Int)
    (args : List GoValue) : Option (GoValue × Store × Option Bytes) :=
  match args.get? 0 with
  | none => none
  | some a0 =>
      let key := a0.bulk
      let fs1 := match fs with
        | none => if writeOk then some (initRDB store) else none
        | some b => some b
      match fs1 with
      | none => some (errValue errUnableMsg, store, fs1)
      | some bytes =>
          match readRDBFile now bytes with
          | none => some (errValue errUnableMsg, store, fs1)
          | some data =>
              let (reply, store2) := getWithData data store now key
              some (reply, store2, fs1)

/-- `save`: run `initRDB` (whose outcome `writeOk` the handler never sees)
and reply `"OK"` unconditionally. -/
def save (writeOk : Bool) (fs : Option Bytes) (store : Store)
    (_args : List GoValue) : GoValue × Option Bytes :=
  (strValue okBytes, if writeOk then some (initRDB store) else fs)

/-- Go's `strings.Contains(s, sub)`: `sub` occurs contiguously in `s`
(the empty pattern is contained in everything). -/
def containsSub (s sub : Bytes) : Bool :=
  match s with
  | [] => sub.isEmpty
  | _ :: t => sub.isPrefixOf s || containsSub t sub

/-- The accumulation loop of `keys`: every key for pattern `"*"`, otherwise
the keys containing the pattern as a substring. -/
def keysLoop (pattern : Bytes) : Assoc → List GoValue
  | [] => []
  | (key, _) :: rest =>
      if pattern ≠ starBytes then
        if containsSub key pattern then strValue key :: keysLoop pattern rest
        else keysLoop pattern rest
      else strValue key :: keysLoop pattern rest

/-- `keys`: `args[0]` (panics on no arguments), decode the snapshot file
(error reply when it cannot be read), and filter its keys; the live store is
never consulted. -/
def keys (fs : Option Bytes) (now : Int) (args : List GoValue) :
    Option GoValue :=
  match args.get? 0 with
  | none => none
  | some pattern =>
      match fs with
      | none => some (errValue errUnableMsg)
      | some bytes =>
          match readRDBFile now bytes with
          | none => some (errValue errUnableMsg)
          | some data => some (arrayValue (keysLoop pattern.bulk data))

/-! ### Arithmetic helper lemmas -/

theorem lor64_eq_add : ∀ x < 64, x ||| 64 = x + 64 := by decide

theorem land63_eq_mod : ∀ x < 128, x &&& 63 = x % 64 := by decide

theorem shiftRight6_eq_div (x : Nat) : x >>> 6 = x / 64 := by
  simpa using Nat.shiftRight_eq_div_pow x 6

theorem shiftRight8_eq_div (x : Nat) : x >>> 8 = x / 256 := by
  simpa using Nat.shiftRight_eq_div_pow x 8

theorem shiftLeft8_eq_mul (x : Nat) : x <<< 8 = x * 256 := by
  simpa using Nat.shiftLeft_eq x 8

theorem lor_mul256_eq_add : ∀ a < 64, ∀ b < 256, (a * 256) ||| b = a * 256 + b := by decide

theorem getUint64LE_putUint64LE (n : Nat) (h : n < 2 ^ 64) :
    getUint64LE (putUint64LE n) = n := by
  simp only [putUint64LE, getUint64LE]
  omega

theorem putUint64LE_length (n : Nat) : (putUint64LE n).length = 8 := rfl

theorem timestamp_roundtrip (e : Int) (h1 : -(2 ^ 63) ≤ e) (h2 : e < 2 ^ 63) :
    int64OfUint64 (getUint64LE (timestampEncoding e)) = e := by
  have hm : (e % (2 ^ 64 : Int)).toNat < 2 ^ 64 := by omega
  simp only [timestampEncoding, int64OfUint64,
    getUint64LE_putUint64LE _ hm]
  omega

/-! ### Length-encoding lemmas -/

theorem lengthEncoding_small (n : Nat) (h : n < 64) :
    lengthEncoding n = some [n] := by
  simp only [lengthEncoding]
  rw [if_pos (by omega : n < 2 ^ 6)]
  congr 2
  omega

theorem lengthEncoding_mid (n : Nat) (h1 : 64 ≤ n) (h2 : n < 16384) :
    lengthEncoding n = some [n / 256 + 64, n % 256] := by
  simp only [lengthEncoding]
  rw [if_neg (by omega : ¬ n < 2 ^ 6), if_pos (by omega : n < 2 ^ 14)]
  have hd : n >>> 8 = n / 256 := shiftRight8_eq_div n
  have hlt : n / 256 < 64 := by omega
  rw [hd, lor64_eq_add _ hlt]
  congr 2
  omega

theorem lengthEncoding_big (n : Nat) (h : 16384 ≤ n) : lengthEncoding n = none := by
  simp only [lengthEncoding]
  rw [if_neg (by omega : ¬ n < 2 ^ 6), if_neg (by omega : ¬ n < 2 ^ 14)]

theorem readLengthEncoded_small (n : Nat) (h : n < 64) (r : Bytes) :
    readLengthEncoded (n :: r) = some (n, r) := by
  simp only [readLengthEncoded, readByte]
  rw [if_pos (by rw [shiftRight6_eq_div]; omega : n >>> 6 = 0)]

theorem readLengthEncoded_two (n : Nat) (h1 : 64 ≤ n) (h2 : n < 16384) (r : Bytes) :
    readLengthEncoded ((n / 256 + 64) :: n % 256 :: r) = some (n, r) := by
  simp only [readLengthEncoded, readByte]
  have hdiv : (n / 256 + 64) >>> 6 = 1 := by rw [shiftRight6_eq_div]; omega
  rw [if_neg (by rw [hdiv]; omega), if_pos hdiv]
  have ha : (n / 256 + 64) &&& 63 = n / 256 := by
    rw [land63_eq_mod _ (by omega)]; omega
  rw [ha, shiftLeft8_eq_mul, lor_mul256_eq_add _ (by omega) _ (by omega)]
  congr 2
  omega

theorem readLengthEncoded_inv (n : Nat) (enc : Bytes) (h : lengthEncoding n = some enc)
    (r : Bytes) : readLengthEncoded (enc ++ r) = some (n, r) := by
  by_cases h1 : n < 64
  · rw [lengthEncoding_small n h1] at h
    cases h
    simpa using readLengthEncoded_small n h1 r
  · by_cases h2 : n < 16384
    · rw [lengthEncoding_mid n (by omega) h2] at h
      cases h
      simpa using readLengthEncoded_two n (by omega) h2 r
    · rw [lengthEncoding_big n (by omega)] at h
      cases h

/-- Claim C3: length-encoding boundary — lengths 0–63 take one byte (top two
bits `00`) holding the length directly, lengths 64–16383 take two bytes with
the first byte's top two bits `01` and the remaining 14 bits holding the
length, lengths ≥ 16384 fail to encode, and decoding inverts the encoding. -/
theorem length_encoding_boundary (n : Nat) :
    (n ≤ 63 → lengthEncoding n = some [n] ∧ n >>> 6 = 0) ∧
    (64 ≤ n → n ≤ 16383 →
      ∃ b1 b2, lengthEncoding n = some [b1, b2] ∧ b1 >>> 6 = 1 ∧
        (b1 % 64) * 2 ^ 8 + b2 = n) ∧
    (16384 ≤ n → lengthEncoding n = none) ∧
    (∀ enc r, lengthEncoding n = some enc → readLengthEncoded (enc ++ r) = some (n, r)) := by
  refine ⟨fun h => ⟨lengthEncoding_small n (by omega), ?_⟩,
    fun h1 h2 => ⟨n / 256 + 64, n % 256, lengthEncoding_mid n h1 (by omega), ?_, by omega⟩,
    fun h => lengthEncoding_big n h,
    fun enc r h => readLengthEncoded_inv n enc h r⟩
  · rw [shiftRight6_eq_div]; omega
  · rw [shiftRight6_eq_div]; omega

/-- Witness for C3 at the boundary lengths 63, 64 and 16384. -/
theorem length_encoding_boundary_w :
    (lengthEncoding 63 = some [63] ∧ (63 : Nat) >>> 6 = 0) ∧
    (∃ b1 b2, lengthEncoding 64 = some [b1, b2] ∧ b1 >>> 6 = 1 ∧
      (b1 % 64) * 2 ^ 8 + b2 = 64) ∧
    lengthEncoding 16384 = none ∧
    readLengthEncoded ([63] ++ [7]) = some (63, [7]) :=
  ⟨(length_encoding_boundary 63).1 (by omega),
   (length_encoding_boundary 64).2.1 (by omega) (by omega),
   (length_encoding_boundary 16384).2.2.1 (by omega),
   (length_encoding_boundary 63).2.2.2 [63] [7]
     (((length_encoding_boundary 63).1 (by omega)).1)⟩

/-! ### Decoder evaluation lemmas on encoder output -/

theorem readN_exact (xs r : Bytes) : readN xs.length (xs ++ r) = some (xs, r) := by
  induction xs with
  | nil => rfl
  | cons b bs ih => simp [readN, ih]

theorem readString_enc (s : Bytes) (h : s.length ≤ 16383) (r : Bytes) :
    readString (stringEncoding s ++ r) = some (s, r) := by
  obtain ⟨enc, henc⟩ : ∃ enc, lengthEncoding s.length = some enc := by
    by_cases h1 : s.length < 64
    · exact ⟨_, lengthEncoding_small _ h1⟩
    · exact ⟨_, lengthEncoding_mid _ (by omega) (by omega)⟩
  simp only [stringEncoding, henc, readString, List.append_assoc,
    readLengthEncoded_inv s.length enc henc (s ++ r), readN_exact]

theorem timestampEncoding_length (e : Int) : (timestampEncoding e).length = 8 := rfl

theorem readTimestamp_enc (e : Int) (h1 : -(2 ^ 63) ≤ e) (h2 : e < 2 ^ 63) (r : Bytes) :
    readTimestamp (timestampEncoding e ++ r) = some (e, r) := by
  have hx := readN_exact (timestampEncoding e) r
  rw [timestampEncoding_length] at hx
  simp only [readTimestamp, hx, timestamp_roundtrip e h1 h2]

/-- Well-formedness of a stored expiry for the round trip: within `int64`
millisecond range and not yet expired at decode time. -/
def expiryWF (now : Int) : Option Int → Prop
  | none => True
  | some e => -(2 ^ 63) ≤ e ∧ e < 2 ^ 63 ∧ now ≤ e

/-- Well-formedness of a store entry for the round trip: a non-empty key,
key and value short enough for the length encoding, and a well-formed
expiry. -/
def entryWF (now : Int) (p : Bytes × KeyValue) : Prop :=
  p.1 ≠ [] ∧ p.1.length ≤ 16383 ∧ p.2.value.length ≤ 16383 ∧ expiryWF now p.2.expiry

theorem readKeyValue_enc (now : Int) (k : Bytes) (v : KeyValue)
    (hk : k.length ≤ 16383) (hv : v.value.length ≤ 16383)
    (he : expiryWF now v.expiry) (r : Bytes) :
    readKeyValue now (writeKeyValue k v ++ r) = some ((k, v.value), r) := by
  cases hex : v.expiry with
  | none =>
      simp only [writeKeyValue, hex, List.cons_append, readKeyValue, readByte]
      rw [if_neg (by simp [STRING_TYPE, KEYVALUE_EXPIRY])]
      simp only [readStringEntry, List.append_assoc]
      rw [if_neg (by simp)]
      simp only [readString_enc k hk, readString_enc v.value hv]
  | some e =>
      rw [hex] at he
      obtain ⟨he1, he2, he3⟩ := he
      simp only [writeKeyValue, hex, List.cons_append, readKeyValue, readByte]
      rw [if_pos trivial]
      simp only [List.append_assoc, List.cons_append,
        readTimestamp_enc e he1 he2]
      rw [if_neg (by omega)]
      simp only [readByte, readStringEntry, List.append_assoc]
      rw [if_neg (by simp)]
      simp only [readString_enc k hk, readString_enc v.value hv]

/-- The metadata entries written by `initRDB`, as decoded. -/
def metaList : List (Bytes × MetaVal) :=
  [(redisVerKey, MetaVal.s redisVerVal),
   (redisBitsKey, MetaVal.u16 (getUint16LE [0xc0, 0x40]))]

theorem readMetadataF_meta (f : Nat) (r : Bytes) :
    readMetadataF (f + 3)
      (METADATA_SECTION :: (stringEncoding redisVerKey ++ (stringEncoding redisVerVal ++
        (METADATA_SECTION :: (stringEncoding redisBitsKey ++ (0xc0 :: (0x40 ::
          (DB_SECTION :: r)))))))) = some (metaList, DB_SECTION :: r) := rfl

theorem verifyHeader_eval (r : Bytes) :
    verifyHeader (headerBytes ++ r) = some ((), r) := by
  have hx := readN_exact headerBytes r
  simp only [verifyHeader, show (9 : Nat) = headerBytes.length from rfl, hx]
  simp

/-! ### Association-list lemmas -/

theorem alook_aset_of_ne {α : Type} (acc : List (Bytes × α)) (k key : Bytes) (v : α)
    (h : k ≠ key) : alook (aset acc k v) key = alook acc key := by
  induction acc with
  | nil => simp [aset, alook, h]
  | cons p rest ih =>
      by_cases hp : p.1 = k
      · simp [aset, alook, hp, h, if_pos]
      · simp only [aset, alook]
        rw [if_neg (by simpa using hp)]
        simp only [alook, ih]

theorem aset_eq_append {α : Type} (acc : List (Bytes × α)) (k : Bytes) (v : α)
    (h : alook acc k = none) : aset acc k v = acc ++ [(k, v)] := by
  induction acc with
  | nil => rfl
  | cons p rest ih =>
      simp only [alook] at h
      by_cases hp : p.1 = k
      · rw [if_pos hp] at h; cases h
      · rw [if_neg hp] at h
        simp only [aset]
        rw [if_neg hp]
        simp [ih h]

theorem alook_append {α : Type} (a b : List (Bytes × α)) (k : Bytes) :
    alook (a ++ b) k =
      (match alook a k with
       | some v => some v
       | none => alook b k) := by
  induction a with
  | nil => simp [alook]
  | cons p rest ih =>
      by_cases hp : p.1 = k
      · simp [alook, hp]
      · simp only [List.cons_append, alook, if_neg hp, List.append_eq, ih]

/-- The accumulated result of the entries loop as a fold. -/
def foldIns (acc : Assoc) (l : Store) : Assoc :=
  l.foldl (fun a p => aset a p.1 p.2.value) acc

theorem readEntriesF_enc (now : Int) (l : Store)
    (hwf : ∀ p ∈ l, entryWF now p) (acc : Assoc) (r : Bytes) :
    readEntriesF now l.length (encodeEntries l ++ r) acc = some (foldIns acc l, r) := by
  induction l generalizing acc with
  | nil => rfl
  | cons p rest ih =>
      obtain ⟨hk0, hk, hv, he⟩ := hwf p (List.mem_cons_self p rest)
      obtain ⟨k, v⟩ := p
      simp only [encodeEntries, List.append_assoc, List.length_cons, readEntriesF,
        readKeyValue_enc now k v hk hv he]
      rw [if_neg hk0]
      exact ih (fun q hq => hwf q (List.mem_cons_of_mem _ hq)) _

theorem foldIns_eq_append (l : Store) (acc : Assoc)
    (hnd : (l.map Prod.fst).Nodup) (hdisj : ∀ p ∈ l, alook acc p.1 = none) :
    foldIns acc l = acc ++ l.map (fun p => (p.1, p.2.value)) := by
  induction l generalizing acc with
  | nil => simp [foldIns]
  | cons p rest ih =>
      simp only [List.map_cons, List.nodup_cons] at hnd
      simp only [foldIns, List.foldl_cons]
      rw [show List.foldl (fun a q => aset a q.1 q.2.value) (aset acc p.1 p.2.value) rest =
            foldIns (aset acc p.1 p.2.value) rest from rfl]
      rw [aset_eq_append acc p.1 p.2.value (hdisj p (List.mem_cons_self p rest))]
      have hdisj2 : ∀ q ∈ rest, alook (acc ++ [(p.1, p.2.value)]) q.1 = none := by
        intro q hq
        rw [alook_append, hdisj q (List.mem_cons_of_mem _ hq)]
        have hne : p.1 ≠ q.1 := by
          intro hcontra
          exact hnd.1 (hcontra ▸ List.mem_map_of_mem Prod.fst hq)
        simp [alook, hne]
      rw [ih (acc ++ [(p.1, p.2.value)]) hnd.2 hdisj2]
      simp

theorem alook_map_value (l : Store) (k : Bytes) :
    alook (l.map (fun p => (p.1, p.2.value))) k =
      (alook l k).map (fun kv => kv.value) := by
  induction l with
  | nil => rfl
  | cons p rest ih =>
      by_cases hp : p.1 = k
      · simp [alook, hp]
      · simp [alook, hp, ih]

/-! ### The round trip -/

theorem parseStruct_rdbBody (now : Int) (store : Store)
    (hwf : ∀ p ∈ store, entryWF now p)
    (hnd : (store.map Prod.fst).Nodup)
    (h255 : store.length ≤ 255) (t : Bytes) :
    parseStruct now (rdbBody store ++ t) =
      some (store.map (fun p => (p.1, p.2.value)), t) := by
  have hshape : rdbBody store ++ t =
      headerBytes ++ (METADATA_SECTION :: (stringEncoding redisVerKey ++
        (stringEncoding redisVerVal ++ (METADATA_SECTION ::
          (stringEncoding redisBitsKey ++ (0xc0 :: (0x40 :: (DB_SECTION ::
            (DB_INDEX :: (HASHTABLE_SIZE :: ((store.length % 256) :: (0x00 ::
              (encodeEntries store ++ (EOF_BYTE :: t)))))))))))))) := by
    simp [rdbBody, List.append_assoc]
  have hmod : store.length % 256 = store.length := Nat.mod_eq_of_lt (by omega)
  have hmetaLen : ∀ r : Bytes,
      (METADATA_SECTION :: (stringEncoding redisVerKey ++
        (stringEncoding redisVerVal ++ (METADATA_SECTION ::
          (stringEncoding redisBitsKey ++ (0xc0 :: (0x40 ::
            (DB_SECTION :: r)))))))).length + 1 = (r.length + 30) + 3 := by
    intro r
    simp only [List.length_cons, List.length_append,
      show (stringEncoding redisVerKey).length = 10 from rfl,
      show (stringEncoding redisVerVal).length = 6 from rfl,
      show (stringEncoding redisBitsKey).length = 11 from rfl]
    omega
  have hmeta : ∀ r : Bytes,
      readMetadataF
        ((METADATA_SECTION :: (stringEncoding redisVerKey ++
          (stringEncoding redisVerVal ++ (METADATA_SECTION ::
            (stringEncoding redisBitsKey ++ (0xc0 :: (0x40 ::
              (DB_SECTION :: r)))))))).length + 1)
        (METADATA_SECTION :: (stringEncoding redisVerKey ++
          (stringEncoding redisVerVal ++ (METADATA_SECTION ::
            (stringEncoding redisBitsKey ++ (0xc0 :: (0x40 ::
              (DB_SECTION :: r)))))))) = some (metaList, DB_SECTION :: r) := by
    intro r
    rw [hmetaLen r]
    exact readMetadataF_meta (r.length + 30) r
  have hfold : foldIns [] store = store.map (fun p => (p.1, p.2.value)) := by
    simpa using foldIns_eq_append store [] hnd (fun p _ => rfl)
  rw [hshape]
  simp only [parseStruct, verifyHeader_eval, hmeta, readByte, hmod, hfold,
    readEntriesF_enc now store hwf [] (EOF_BYTE :: t)]
  simp [DB_SECTION, HASHTABLE_SIZE, EOF_BYTE]

/-- Counterexample to claim C1 as stated: a store holding one non-expired
entry whose key is the empty string encodes and decodes to the empty
mapping, not to a mapping with that key. -/
theorem snapshot_roundtrip_cex :
    (∀ p ∈ [(([] : Bytes), KeyValue.mk [118] none)], p.2.expiry = none) ∧
    readRDBFile 0 (initRDB [(([] : Bytes), KeyValue.mk [118] none)]) = some [] := by
  constructor
  · intro p hp
    simp only [List.mem_singleton] at hp
    rw [hp]
  · rfl

theorem readRDBFile_initRDB (now : Int) (store : Store)
    (hwf : ∀ p ∈ store, entryWF now p)
    (hnd : (store.map Prod.fst).Nodup)
    (h255 : store.length ≤ 255) :
    readRDBFile now (initRDB store) = some (store.map (fun p => (p.1, p.2.value))) := by
  have hps := parseStruct_rdbBody now store hwf hnd h255
    (putUint64LE (crc64go (rdbBody store)))
  have hne : (initRDB store).length ≠ 0 := by
    simp [initRDB, rdbBody, headerBytes]
  simp only [readRDBFile]
  rw [if_neg hne]
  rw [show initRDB store = rdbBody store ++ putUint64LE (crc64go (rdbBody store)) from rfl]
  have h8 := readN_exact (putUint64LE (crc64go (rdbBody store))) []
  rw [List.append_nil, putUint64LE_length] at h8
  simp only [hps, h8]

/-- Claim C1 (amended): for any store whose entries are non-expired, have
non-empty keys, keys and values within the supported length encoding, and
in-range expiries, with distinct keys and at most 255 entries, `Save()`
followed by `Load()` yields a mapping with exactly those keys and values. -/
theorem snapshot_roundtrip (now : Int) (store : Store)
    (hwf : ∀ p ∈ store, entryWF now p)
    (hnd : (store.map Prod.fst).Nodup)
    (h255 : store.length ≤ 255) :
    readRDBFile now (initRDB store) = some (store.map (fun p => (p.1, p.2.value))) :=
  readRDBFile_initRDB now store hwf hnd h255

/-- Witness for the amended C1 at a concrete one-entry store. -/
theorem snapshot_roundtrip_w :
    readRDBFile 0 (initRDB [([97], KeyValue.mk [98] none)]) = some [([97], [98])] :=
  snapshot_roundtrip 0 [([97], KeyValue.mk [98] none)]
    (by
      intro p hp
      simp only [List.mem_singleton] at hp
      subst hp
      exact ⟨by simp, by simp, by simp, trivial⟩)
    (by simp) (by simp)

/-! ### Append stability: a successful parse of a prefix is unchanged by
extra trailing bytes (the readers never look past what they consume, except
for the metadata peek, whose byte the next reader consumes). -/

theorem readByte_append (xs : Bytes) (a : Nat) (rest t : Bytes)
    (h : readByte xs = some (a, rest)) :
    readByte (xs ++ t) = some (a, rest ++ t) := by
  cases xs with
  | nil => simp [readByte] at h
  | cons b bs =>
      simp only [readByte, Option.some.injEq, Prod.mk.injEq] at h
      simp [readByte, h.1, h.2]

theorem readN_append (n : Nat) : ∀ (xs a rest t : Bytes),
    readN n xs = some (a, rest) → readN n (xs ++ t) = some (a, rest ++ t) := by
  induction n with
  | zero =>
      intro xs a rest t h
      simp only [readN, Option.some.injEq, Prod.mk.injEq] at h
      simp [readN, h.1, h.2]
  | succ n ih =>
      intro xs a rest t h
      cases xs with
      | nil => simp [readN] at h
      | cons b bs =>
          rw [List.cons_append]
          simp only [readN] at h ⊢
          cases hrec : readN n bs with
          | none => simp only [hrec] at h; cases h
          | some pr =>
              obtain ⟨xs1, r1⟩ := pr
              simp only [hrec] at h
              simp only [Option.some.injEq, Prod.mk.injEq] at h
              simp only [ih bs xs1 r1 t hrec]
              simp [h.1, h.2]

theorem readLengthEncoded_append (xs : Bytes) (a : Nat) (rest t : Bytes)
    (h : readLengthEncoded xs = some (a, rest)) :
    readLengthEncoded (xs ++ t) = some (a, rest ++ t) := by
  cases xs with
  | nil => simp [readLengthEncoded, readByte] at h
  | cons b bs =>
      simp only [readLengthEncoded, readByte, List.cons_append] at h ⊢
      by_cases h6 : b >>> 6 = 0
      · rw [if_pos h6] at h ⊢
        simp only [Option.some.injEq, Prod.mk.injEq] at h
        simp [h.1, h.2]
      · rw [if_neg h6] at h ⊢
        by_cases h61 : b >>> 6 = 1
        · rw [if_pos h61] at h ⊢
          cases bs with
          | nil => simp [readByte] at h
          | cons b2 bs2 =>
              simp only [readByte, Option.some.injEq, Prod.mk.injEq,
                List.cons_append] at h ⊢
              simp [h.1, h.2]
        · rw [if_neg h61] at h; cases h

theorem readString_append (xs a rest t : Bytes)
    (h : readString xs = some (a, rest)) :
    readString (xs ++ t) = some (a, rest ++ t) := by
  simp only [readString] at h ⊢
  cases hle : readLengthEncoded xs with
  | none => simp only [hle] at h; cases h
  | some pr =>
      obtain ⟨len, r1⟩ := pr
      simp only [hle] at h
      simp only [readLengthEncoded_append xs len r1 t hle]
      cases hn : readN len r1 with
      | none => simp only [hn] at h; cases h
      | some pr2 =>
          obtain ⟨data, r2⟩ := pr2
          simp only [hn] at h
          simp only [Option.some.injEq, Prod.mk.injEq] at h
          simp only [readN_append len r1 data r2 t hn]
          simp [h.1, h.2]

theorem readTimestamp_append (xs : Bytes) (a : Int) (rest t : Bytes)
    (h : readTimestamp xs = some (a, rest)) :
    readTimestamp (xs ++ t) = some (a, rest ++ t) := by
  simp only [readTimestamp] at h ⊢
  cases hn : readN 8 xs with
  | none => simp only [hn] at h; cases h
  | some pr =>
      obtain ⟨buf, r1⟩ := pr
      simp only [hn] at h
      simp only [Option.some.injEq, Prod.mk.injEq] at h
      simp only [readN_append 8 xs buf r1 t hn]
      simp [h.1, h.2]

theorem readStringEntry_append (typ : Nat) (xs : Bytes) (a : Bytes × Bytes)
    (rest t : Bytes) (h : readStringEntry typ xs = some (a, rest)) :
    readStringEntry typ (xs ++ t) = some (a, rest ++ t) := by
  simp only [readStringEntry] at h ⊢
  by_cases ht : typ ≠ STRING_TYPE
  · rw [if_pos ht] at h; cases h
  · rw [if_neg ht] at h ⊢
    cases h1 : readString xs with
    | none => simp only [h1] at h; cases h
    | some pr =>
        obtain ⟨key, r1⟩ := pr
        simp only [h1] at h
        simp only [readString_append xs key r1 t h1]
        cases h2 : readString r1 with
        | none => simp only [h2] at h; cases h
        | some pr2 =>
            obtain ⟨value, r2⟩ := pr2
            simp only [h2] at h
            simp only [Option.some.injEq, Prod.mk.injEq] at h
            simp only [readString_append r1 value r2 t h2]
            simp [h.1, h.2]

theorem readKeyValue_append (now : Int) (xs : Bytes) (a : Bytes × Bytes)
    (rest t : Bytes) (h : readKeyValue now xs = some (a, rest)) :
    readKeyValue now (xs ++ t) = some (a, rest ++ t) := by
  simp only [readKeyValue] at h ⊢
  cases hb : readByte xs with
  | none => simp only [hb] at h; cases h
  | some pr =>
      obtain ⟨typ, r1⟩ := pr
      simp only [hb] at h
      simp only [readByte_append xs typ r1 t hb]
      by_cases hexp : typ = KEYVALUE_EXPIRY
      · rw [if_pos hexp] at h ⊢
        cases hts : readTimestamp r1 with
        | none => simp only [hts] at h; cases h
        | some pr2 =>
            obtain ⟨expiry, r2⟩ := pr2
            simp only [hts] at h
            simp only [readTimestamp_append r1 expiry r2 t hts]
            by_cases hnow : now > expiry
            · rw [if_pos hnow] at h ⊢
              cases hb2 : readByte r2 with
              | none => simp only [hb2] at h; cases h
              | some pr3 =>
                  obtain ⟨typ2, r3⟩ := pr3
                  simp only [hb2] at h
                  simp only [readByte_append r2 typ2 r3 t hb2]
                  by_cases ht2 : typ2 ≠ STRING_TYPE
                  · rw [if_pos ht2] at h; cases h
                  · rw [if_neg ht2] at h ⊢
                    cases hs1 : readString r3 with
                    | none => simp only [hs1] at h; cases h
                    | some pr4 =>
                        obtain ⟨k1, r4⟩ := pr4
                        simp only [hs1] at h
                        simp only [readString_append r3 k1 r4 t hs1]
                        cases hs2 : readString r4 with
                        | none => simp only [hs2] at h; cases h
                        | some pr5 =>
                            obtain ⟨v1, r5⟩ := pr5
                            simp only [hs2] at h
                            simp only [Option.some.injEq, Prod.mk.injEq] at h
                            simp only [readString_append r4 v1 r5 t hs2]
                            simp [h.1, h.2]
            · rw [if_neg hnow] at h ⊢
              cases hb2 : readByte r2 with
              | none => simp only [hb2] at h; cases h
              | some pr3 =>
                  obtain ⟨typ2, r3⟩ := pr3
                  simp only [hb2] at h
                  simp only [readByte_append r2 typ2 r3 t hb2]
                  exact readStringEntry_append typ2 r3 a rest t h
      · rw [if_neg hexp] at h ⊢
        exact readStringEntry_append typ r1 a rest t h

theorem readEntriesF_append (now : Int) (n : Nat) : ∀ (bs : Bytes) (acc m : Assoc)
    (rest t : Bytes), readEntriesF now n bs acc = some (m, rest) →
    readEntriesF now n (bs ++ t) acc = some (m, rest ++ t) := by
  induction n with
  | zero =>
      intro bs acc m rest t h
      simp only [readEntriesF, Option.some.injEq, Prod.mk.injEq] at h
      simp [readEntriesF, h.1, h.2]
  | succ n ih =>
      intro bs acc m rest t h
      simp only [readEntriesF] at h ⊢
      cases hkv : readKeyValue now bs with
      | none => simp only [hkv] at h; cases h
      | some pr =>
          obtain ⟨⟨key, value⟩, r1⟩ := pr
          simp only [hkv] at h
          simp only [readKeyValue_append now bs (key, value) r1 t hkv]
          by_cases hk : key = []
          · rw [if_pos hk] at h ⊢
            exact ih r1 acc m rest t h
          · rw [if_neg hk] at h ⊢
            exact ih r1 _ m rest t h

theorem readMetadataF_append (fuel : Nat) : ∀ (xs : Bytes)
    (ms : List (Bytes × MetaVal)) (rest t : Bytes),
    readMetadataF fuel xs = some (ms, rest) →
    readMetadataF fuel (xs ++ t) = some (ms, rest ++ t) := by
  induction fuel with
  | zero =>
      intro xs ms rest t h
      cases xs with
      | nil => simp [readMetadataF] at h
      | cons b bs => simp [readMetadataF] at h
  | succ fuel ih =>
      intro xs ms rest t h
      cases xs with
      | nil => simp [readMetadataF] at h
      | cons b bs =>
          rw [List.cons_append]
          simp only [readMetadataF] at h ⊢
          by_cases hdb : b = DB_SECTION
          · rw [if_pos hdb] at h ⊢
            simp only [Option.some.injEq, Prod.mk.injEq] at h
            simp [h.1, ← h.2]
          · rw [if_neg hdb] at h ⊢
            by_cases hmet : b ≠ METADATA_SECTION
            · rw [if_pos hmet] at h; cases h
            · rw [if_neg hmet] at h ⊢
              cases hk : readString bs with
              | none => simp only [hk] at h; cases h
              | some pr =>
                  obtain ⟨key, r1⟩ := pr
                  simp only [hk] at h
                  simp only [readString_append bs key r1 t hk]
                  by_cases hver : key = redisVerKey
                  · rw [if_pos hver] at h ⊢
                    cases hv : readString r1 with
                    | none => simp only [hv] at h; cases h
                    | some pr2 =>
                        obtain ⟨v, r2⟩ := pr2
                        simp only [hv] at h
                        simp only [readString_append r1 v r2 t hv]
                        cases hrec : readMetadataF fuel r2 with
                        | none => simp only [hrec] at h; cases h
                        | some pr3 =>
                            obtain ⟨ms2, r3⟩ := pr3
                            simp only [hrec] at h
                            simp only [Option.some.injEq, Prod.mk.injEq] at h
                            simp only [ih r2 ms2 r3 t hrec]
                            simp [h.1, h.2]
                  · rw [if_neg hver] at h ⊢
                    by_cases hbits : key = redisBitsKey
                    · rw [if_pos hbits] at h ⊢
                      cases hv : readN 2 r1 with
                      | none => simp only [hv] at h; cases h
                      | some pr2 =>
                          obtain ⟨buf, r2⟩ := pr2
                          simp only [hv] at h
                          simp only [readN_append 2 r1 buf r2 t hv]
                          cases hrec : readMetadataF fuel r2 with
                          | none => simp only [hrec] at h; cases h
                          | some pr3 =>
                              obtain ⟨ms2, r3⟩ := pr3
                              simp only [hrec] at h
                              simp only [Option.some.injEq, Prod.mk.injEq] at h
                              simp only [ih r2 ms2 r3 t hrec]
                              simp [h.1, h.2]
                    · rw [if_neg hbits] at h ⊢
                      cases hv : readString r1 with
                      | none => simp only [hv] at h; cases h
                      | some pr2 =>
                          obtain ⟨v, r2⟩ := pr2
                          simp only [hv] at h
                          simp only [readString_append r1 v r2 t hv]
                          cases hrec : readMetadataF fuel r2 with
                          | none => simp only [hrec] at h; cases h
                          | some pr3 =>
                              obtain ⟨ms2, r3⟩ := pr3
                              simp only [hrec] at h
                              simp only [Option.some.injEq, Prod.mk.injEq] at h
                              simp only [ih r2 ms2 r3 t hrec]
                              simp [h.1, h.2]

theorem readMetadataF_mono (f : Nat) : ∀ (g : Nat) (xs : Bytes)
    (x : List (Bytes × MetaVal) × Bytes), readMetadataF f xs = some x → f ≤ g →
    readMetadataF g xs = some x := by
  induction f with
  | zero =>
      intro g xs x h _
      cases xs with
      | nil => simp [readMetadataF] at h
      | cons b bs => simp [readMetadataF] at h
  | succ f ih =>
      intro g xs x h hfg
      cases xs with
      | nil => simp [readMetadataF] at h
      | cons b bs =>
          obtain ⟨g', rfl⟩ : ∃ g', g = g' + 1 := ⟨g - 1, by omega⟩
          simp only [readMetadataF] at h ⊢
          by_cases hdb : b = DB_SECTION
          · rw [if_pos hdb] at h ⊢; exact h
          · rw [if_neg hdb] at h ⊢
            by_cases hmet : b ≠ METADATA_SECTION
            · rw [if_pos hmet] at h; cases h
            · rw [if_neg hmet] at h ⊢
              cases hk : readString bs with
              | none => simp only [hk] at h; cases h
              | some pr =>
                  obtain ⟨key, r1⟩ := pr
                  simp only [hk] at h ⊢
                  by_cases hver : key = redisVerKey
                  · rw [if_pos hver] at h ⊢
                    cases hv : readString r1 with
                    | none => simp only [hv] at h; cases h
                    | some pr2 =>
                        obtain ⟨v, r2⟩ := pr2
                        simp only [hv] at h ⊢
                        cases hrec : readMetadataF f r2 with
                        | none => simp only [hrec] at h; cases h
                        | some pr3 =>
                            simp only [hrec] at h
                            simp only [ih g' r2 pr3 hrec (by omega)]
                            exact h
                  · rw [if_neg hver] at h ⊢
                    by_cases hbits : key = redisBitsKey
                    · rw [if_pos hbits] at h ⊢
                      cases hv : readN 2 r1 with
                      | none => simp only [hv] at h; cases h
                      | some pr2 =>
                          obtain ⟨buf, r2⟩ := pr2
                          simp only [hv] at h ⊢
                          cases hrec : readMetadataF f r2 with
                          | none => simp only [hrec] at h; cases h
                          | some pr3 =>
                              simp only [hrec] at h
                              simp only [ih g' r2 pr3 hrec (by omega)]
                              exact h
                    · rw [if_neg hbits] at h ⊢
                      cases hv : readString r1 with
                      | none => simp only [hv] at h; cases h
                      | some pr2 =>
                          obtain ⟨v, r2⟩ := pr2
                          simp only [hv] at h ⊢
                          cases hrec : readMetadataF f r2 with
                          | none => simp only [hrec] at h; cases h
                          | some pr3 =>
                              simp only [hrec] at h
                              simp only [ih g' r2 pr3 hrec (by omega)]
                              exact h

theorem verifyHeader_append (xs : Bytes) (rest t : Bytes)
    (h : verifyHeader xs = some ((), rest)) :
    verifyHeader (xs ++ t) = some ((), rest ++ t) := by
  simp only [verifyHeader] at h ⊢
  cases hn : readN 9 xs with
  | none => simp only [hn] at h; cases h
  | some pr =>
      obtain ⟨hd, r1⟩ := pr
      simp only [hn] at h
      simp only [readN_append 9 xs hd r1 t hn]
      by_cases hh : hd = headerBytes
      · rw [if_pos hh] at h ⊢
        simp only [Option.some.injEq, Prod.mk.injEq] at h
        simp [h.2]
      · rw [if_neg hh] at h; cases h

theorem parseStruct_append (now : Int) (xs : Bytes) (m : Assoc) (rest t : Bytes)
    (h : parseStruct now xs = some (m, rest)) :
    parseStruct now (xs ++ t) = some (m, rest ++ t) := by
  simp only [parseStruct] at h ⊢
  cases hv : verifyHeader xs with
  | none => simp only [hv] at h; cases h
  | some pr =>
      obtain ⟨u, r1⟩ := pr
      simp only [hv] at h
      obtain ⟨⟩ := u
      simp only [verifyHeader_append xs r1 t hv]
      cases hm : readMetadataF (r1.length + 1) r1 with
      | none => simp only [hm] at h; cases h
      | some pr2 =>
          obtain ⟨ms, r2⟩ := pr2
          simp only [hm] at h
          have hm2 : readMetadataF ((r1 ++ t).length + 1) (r1 ++ t) = some (ms, r2 ++ t) := by
            have hx := readMetadataF_append (r1.length + 1) r1 ms r2 t hm
            exact readMetadataF_mono _ _ _ _ hx (by simp [List.length_append])
          simp only [hm2]
          cases hb1 : readByte r2 with
          | none => simp only [hb1] at h; cases h
          | some pr3 =>
              obtain ⟨b, r3⟩ := pr3
              simp only [hb1] at h
              simp only [readByte_append r2 b r3 t hb1]
              by_cases hdb : b ≠ DB_SECTION
              · rw [if_pos hdb] at h; cases h
              · rw [if_neg hdb] at h ⊢
                cases hb2 : readByte r3 with
                | none => simp only [hb2] at h; cases h
                | some pr4 =>
                    obtain ⟨dbidx, r4⟩ := pr4
                    simp only [hb2] at h
                    simp only [readByte_append r3 dbidx r4 t hb2]
                    cases hb3 : readByte r4 with
                    | none => simp only [hb3] at h; cases h
                    | some pr5 =>
                        obtain ⟨hmk, r5⟩ := pr5
                        simp only [hb3] at h
                        simp only [readByte_append r4 hmk r5 t hb3]
                        by_cases hhm : hmk ≠ HASHTABLE_SIZE
                        · rw [if_pos hhm] at h; cases h
                        · rw [if_neg hhm] at h ⊢
                          cases hb4 : readByte r5 with
                          | none => simp only [hb4] at h; cases h
                          | some pr6 =>
                              obtain ⟨cnt, r6⟩ := pr6
                              simp only [hb4] at h
                              simp only [readByte_append r5 cnt r6 t hb4]
                              cases hb5 : readByte r6 with
                              | none => simp only [hb5] at h; cases h
                              | some pr7 =>
                                  obtain ⟨ec, r7⟩ := pr7
                                  simp only [hb5] at h
                                  simp only [readByte_append r6 ec r7 t hb5]
                                  cases hent : readEntriesF now cnt r7 [] with
                                  | none => simp only [hent] at h; cases h
                                  | some pr8 =>
                                      obtain ⟨kvs, r8⟩ := pr8
                                      simp only [hent] at h
                                      simp only [readEntriesF_append now cnt r7 [] kvs r8 t hent]
                                      cases hb6 : readByte r8 with
                                      | none => simp only [hb6] at h; cases h
                                      | some pr9 =>
                                          obtain ⟨eofb, r9⟩ := pr9
                                          simp only [hb6] at h
                                          simp only [readByte_append r8 eofb r9 t hb6]
                                          by_cases heof : eofb ≠ EOF_BYTE
                                          · rw [if_pos heof] at h; cases h
                                          · rw [if_neg heof] at h ⊢
                                            simp only [Option.some.injEq,
                                              Prod.mk.injEq] at h
                                            simp [h.1, h.2]

/-- Claim C8: `Load` reads but never verifies the trailing 8 checksum bytes —
for a well-formed snapshot (a structural part the parser consumes exactly,
followed by 8 checksum bytes), replacing the trailing 8 bytes by any other
8 bytes leaves `Load` succeeding with the same mapping. -/
theorem load_ignores_checksum (now : Int) (pre : Bytes) (m : Assoc) (c1 c2 : Bytes)
    (hp : parseStruct now pre = some (m, []))
    (h1 : c1.length = 8) (h2 : c2.length = 8) :
    readRDBFile now (pre ++ c1) = some m ∧ readRDBFile now (pre ++ c2) = some m := by
  have gen : ∀ c : Bytes, c.length = 8 → readRDBFile now (pre ++ c) = some m := by
    intro c hc
    have hps := parseStruct_append now pre m [] c hp
    simp only [List.nil_append] at hps
    have hne : (pre ++ c).length ≠ 0 := by
      simp only [List.length_append]
      omega
    simp only [readRDBFile]
    rw [if_neg hne]
    have h8 := readN_exact c []
    rw [List.append_nil, hc] at h8
    simp only [hps, h8]
  exact ⟨gen c1 h1, gen c2 h2⟩

/-- Witness for C8: the snapshot of the empty store with its real checksum,
and the same bytes with an all-zero checksum, load to the same mapping. -/
theorem load_ignores_checksum_w :
    readRDBFile 0 (rdbBody [] ++ putUint64LE (crc64go (rdbBody []))) = some [] ∧
    readRDBFile 0 (rdbBody [] ++ [0, 0, 0, 0, 0, 0, 0, 0]) = some [] :=
  load_ignores_checksum 0 (rdbBody []) [] (putUint64LE (crc64go (rdbBody [])))
    [0, 0, 0, 0, 0, 0, 0, 0] rfl rfl rfl

/-! ### Load never binds the empty key -/

theorem readEntriesF_no_empty (now : Int) (n : Nat) : ∀ (bs : Bytes) (acc m : Assoc)
    (r : Bytes), alook acc [] = none → readEntriesF now n bs acc = some (m, r) →
    alook m [] = none := by
  induction n with
  | zero =>
      intro bs acc m r hacc h
      simp only [readEntriesF, Option.some.injEq, Prod.mk.injEq] at h
      rw [← h.1]
      exact hacc
  | succ n ih =>
      intro bs acc m r hacc h
      simp only [readEntriesF] at h
      cases hkv : readKeyValue now bs with
      | none => simp only [hkv] at h; cases h
      | some pr =>
          obtain ⟨⟨key, value⟩, r2⟩ := pr
          simp only [hkv] at h
          by_cases hk : key = []
          · rw [if_pos hk] at h
            exact ih r2 acc m r hacc h
          · rw [if_neg hk] at h
            refine ih r2 _ m r ?_ h
            rw [alook_aset_of_ne acc key [] value hk]
            exact hacc

theorem parseStruct_no_empty (now : Int) (bytes : Bytes) (m : Assoc) (r : Bytes)
    (h : parseStruct now bytes = some (m, r)) : alook m [] = none := by
  simp only [parseStruct] at h
  cases hv : verifyHeader bytes with
  | none => simp only [hv] at h; cases h
  | some pr =>
      obtain ⟨u, r1⟩ := pr
      simp only [hv] at h
      cases hm : readMetadataF (r1.length + 1) r1 with
      | none => simp only [hm] at h; cases h
      | some pr2 =>
          obtain ⟨ms, r2⟩ := pr2
          simp only [hm] at h
          cases hb1 : readByte r2 with
          | none => simp only [hb1] at h; cases h
          | some pr3 =>
              obtain ⟨b, r3⟩ := pr3
              simp only [hb1] at h
              by_cases hdb : b ≠ DB_SECTION
              · rw [if_pos hdb] at h; cases h
              · rw [if_neg hdb] at h
                cases hb2 : readByte r3 with
                | none => simp only [hb2] at h; cases h
                | some pr4 =>
                    obtain ⟨dbidx, r4⟩ := pr4
                    simp only [hb2] at h
                    cases hb3 : readByte r4 with
                    | none => simp only [hb3] at h; cases h
                    | some pr5 =>
                        obtain ⟨hmk, r5⟩ := pr5
                        simp only [hb3] at h
                        by_cases hhm : hmk ≠ HASHTABLE_SIZE
                        · rw [if_pos hhm] at h; cases h
                        · rw [if_neg hhm] at h
                          cases hb4 : readByte r5 with
                          | none => simp only [hb4] at h; cases h
                          | some pr6 =>
                              obtain ⟨cnt, r6⟩ := pr6
                              simp only [hb4] at h
                              cases hb5 : readByte r6 with
                              | none => simp only [hb5] at h; cases h
                              | some pr7 =>
                                  obtain ⟨ec, r7⟩ := pr7
                                  simp only [hb5] at h
                                  cases hent : readEntriesF now cnt r7 [] with
                                  | none => simp only [hent] at h; cases h
                                  | some pr8 =>
                                      obtain ⟨kvs, r8⟩ := pr8
                                      simp only [hent] at h
                                      cases hb6 : readByte r8 with
                                      | none => simp only [hb6] at h; cases h
                                      | some pr9 =>
                                          obtain ⟨eofb, r9⟩ := pr9
                                          simp only [hb6] at h
                                          by_cases heof : eofb ≠ EOF_BYTE
                                          · rw [if_pos heof] at h; cases h
                                          · rw [if_neg heof] at h
                                            simp only [Option.some.injEq,
                                              Prod.mk.injEq] at h
                                            rw [← h.1]
                                            exact readEntriesF_no_empty now cnt r7 []
                                              kvs r8 rfl hent

/-- Claim C10: `Load` never binds the empty string as a key — any mapping it
returns has no entry for the empty key, and a snapshot holding a valid,
non-expired entry with an empty key decodes with that entry skipped. -/
theorem load_skips_empty_key :
    (∀ (now : Int) (bytes : Bytes) (m : Assoc),
        readRDBFile now bytes = some m → alook m [] = none) ∧
    readRDBFile 0 (initRDB [([], KeyValue.mk [118] none), ([97], KeyValue.mk [98] none)]) =
      some [([97], [98])] := by
  constructor
  · intro now bytes m h
    simp only [readRDBFile] at h
    by_cases h0 : bytes.length = 0
    · rw [if_pos h0] at h; cases h
    · rw [if_neg h0] at h
      cases hps : parseStruct now bytes with
      | none => simp only [hps] at h; cases h
      | some pr =>
          obtain ⟨kvs, r9⟩ := pr
          simp only [hps] at h
          cases hn : readN 8 r9 with
          | none => simp only [hn] at h; cases h
          | some pr2 =>
              simp only [hn, Option.some.injEq] at h
              rw [← h]
              exact parseStruct_no_empty now bytes kvs r9 hps
  · rfl

/-- Witness for C10 applied at a concrete decoded mapping. -/
theorem load_skips_empty_key_w : alook [([97], [98])] [] = none :=
  load_skips_empty_key.1 0
    (initRDB [([], KeyValue.mk [118] none), ([97], KeyValue.mk [98] none)])
    [([97], [98])] load_skips_empty_key.2

/-! ### Handler evaluation helpers -/

theorem get_eval (writeOk : Bool) (bytes : Bytes) (store : Store) (now : Int)
    (key : Bytes) (m : Assoc) (hdec : readRDBFile now bytes = some m) :
    get writeOk (some bytes) store now [bulkValue key] =
      some ((getWithData m store now key).1, (getWithData m store now key).2,
        some bytes) := by
  simp only [get, List.get?, hdec, bulkValue]

theorem get_hit (writeOk : Bool) (bytes : Bytes) (store : Store) (now : Int)
    (key : Bytes) (m : Assoc) (v : Bytes) (hdec : readRDBFile now bytes = some m)
    (hv : alook m key = some v) (hne : v ≠ []) :
    get writeOk (some bytes) store now [bulkValue key] =
      some (bulkValue v, store, some bytes) := by
  rw [get_eval writeOk bytes store now key m hdec]
  simp only [getWithData, hv]
  rw [if_neg hne]

theorem get_miss (writeOk : Bool) (bytes : Bytes) (store : Store) (now : Int)
    (key : Bytes) (m : Assoc) (hdec : readRDBFile now bytes = some m)
    (hmiss : alook m key = none ∨ alook m key = some []) :
    get writeOk (some bytes) store now [bulkValue key] =
      some ((getMem store now key).1, (getMem store now key).2, some bytes) := by
  rw [get_eval writeOk bytes store now key m hdec]
  rcases hmiss with hm | hm <;> simp [getWithData, hm]

theorem getMem_entry_none (store : Store) (now : Int) (key v : Bytes)
    (hmem : alook store key = some (KeyValue.mk v none)) (hv : v ≠ []) :
    getMem store now key = (bulkValue v, store) := by
  simp only [getMem, hmem, Option.getD_some]
  rw [if_neg hv]

theorem getMem_entry_expired (store : Store) (now : Int) (key v : Bytes) (e : Int)
    (hmem : alook store key = some (KeyValue.mk v (some e))) (hv : v ≠ [])
    (hpast : now > e) :
    getMem store now key = (nullValue, adel store key) := by
  simp only [getMem, hmem, Option.getD_some]
  rw [if_neg hv]
  simp only [if_pos hpast]

theorem getMem_entry_live (store : Store) (now : Int) (key v : Bytes) (e : Int)
    (hmem : alook store key = some (KeyValue.mk v (some e))) (hv : v ≠ [])
    (hfut : ¬ now > e) :
    getMem store now key = (bulkValue v, store) := by
  simp only [getMem, hmem, Option.getD_some]
  rw [if_neg hv]
  simp only [if_neg hfut]

/-- Claim C6: the SAVE handler replies with the simple string "OK" no matter
whether the underlying snapshot write succeeded. -/
theorem save_always_ok (writeOk : Bool) (fs : Option Bytes) (store : Store)
    (args : List GoValue) : (save writeOk fs store args).1 = strValue okBytes := rfl

/-- Claim C4 (code evaluation at the failing inputs): ECHO, GET and KEYS with
zero arguments and SET with exactly three arguments index a missing argument
out of range — a Go runtime panic, modelled as `none` — instead of returning
a Wire Error reply; only SET with fewer than two arguments actually gets the
arity error the spec promises. -/
theorem handlers_crash_on_missing_args :
    echo [] = none ∧
    get true none [] 0 [] = none ∧
    keys none 0 [] = none ∧
    set [] 0 [bulkValue [107], bulkValue [118], bulkValue [112, 120]] = none ∧
    set [] 0 [bulkValue [107]] = some (errValue errSetArityMsg, []) :=
  ⟨rfl, rfl, rfl, rfl, rfl⟩

/-! ### KEYS scope and matching -/

theorem keysLoop_mem (pat k : Bytes) (m : Assoc) :
    strValue k ∈ keysLoop pat m ↔
      (k ∈ m.map Prod.fst ∧ (pat = starBytes ∨ containsSub k pat = true)) := by
  induction m with
  | nil => simp [keysLoop]
  | cons p rest ih =>
      obtain ⟨pk, pv⟩ := p
      simp only [keysLoop]
      by_cases hstar : pat ≠ starBytes
      · rw [if_pos hstar]
        by_cases hc : containsSub pk pat = true
        · rw [if_pos hc]
          simp only [List.mem_cons, List.map_cons, ih]
          constructor
          · rintro (heq | ⟨hmem, hpc⟩)
            · have hk : k = pk := by
                simpa [strValue, GoValue.mk.injEq] using heq
              subst hk
              exact ⟨Or.inl rfl, Or.inr hc⟩
            · exact ⟨Or.inr hmem, hpc⟩
          · rintro ⟨heq | hmem, hpc⟩
            · subst heq
              exact Or.inl rfl
            · exact Or.inr ⟨hmem, hpc⟩
        · rw [if_neg hc]
          rw [ih]
          simp only [List.map_cons, List.mem_cons]
          constructor
          · rintro ⟨hmem, hpc⟩
            exact ⟨Or.inr hmem, hpc⟩
          · rintro ⟨heq | hmem, hpc⟩
            · subst heq
              rcases hpc with hs | hcc
              · exact absurd hs hstar
              · exact absurd hcc hc
            · exact ⟨hmem, hpc⟩
      · rw [if_neg hstar]
        have hs : pat = starBytes := by
          by_contra hcon
          exact hstar hcon
        subst hs
        simp only [List.mem_cons, List.map_cons, ih]
        constructor
        · rintro (heq | ⟨hmem, hpc⟩)
          · have hk : k = pk := by
              simpa [strValue, GoValue.mk.injEq] using heq
            subst hk
            exact ⟨Or.inl rfl, Or.inl trivial⟩
          · exact ⟨Or.inr hmem, Or.inl trivial⟩
        · rintro ⟨heq | hmem, _⟩
          · subst heq
            exact Or.inl rfl
          · exact Or.inr ⟨hmem, Or.inl trivial⟩

/-- Claim C5: KEYS enumerates keys from the decoded snapshot file only (the
live store is not an input of the handler): with a decodable snapshot the
reply is an array containing exactly the snapshot keys when the pattern is
"*", and exactly the snapshot keys containing the pattern as a substring
otherwise. -/
theorem keys_scope_and_matching (fileBytes : Bytes) (now : Int) (pat : Bytes)
    (m : Assoc) (hdec : readRDBFile now fileBytes = some m) :
    keys (some fileBytes) now [bulkValue pat] =
      some (arrayValue (keysLoop pat m)) ∧
    (∀ k : Bytes, strValue k ∈ keysLoop pat m ↔
      (k ∈ m.map Prod.fst ∧ (pat = starBytes ∨ containsSub k pat = true))) := by
  constructor
  · simp only [keys, List.get?, hdec, bulkValue]
  · intro k
    exact keysLoop_mem pat k m

/-- Witness for C5: `KEYS *` and a substring pattern over a two-key
snapshot. -/
theorem keys_scope_and_matching_w :
    keys (some (initRDB [([97], KeyValue.mk [49] none), ([98, 97], KeyValue.mk [50] none)]))
      0 [bulkValue [98]] = some (arrayValue (keysLoop [98] [([97], [49]), ([98, 97], [50])])) ∧
    strValue [98, 97] ∈ keysLoop [98] [([97], [49]), ([98, 97], [50])] :=
  ⟨(keys_scope_and_matching
      (initRDB [([97], KeyValue.mk [49] none), ([98, 97], KeyValue.mk [50] none)])
      0 [98] [([97], [49]), ([98, 97], [50])] rfl).1,
   ((keys_scope_and_matching
      (initRDB [([97], KeyValue.mk [49] none), ([98, 97], KeyValue.mk [50] none)])
      0 [98] [([97], [49]), ([98, 97], [50])] rfl).2 [98, 97]).mpr (by decide)⟩

/-! ### Lazy expiry (C7) -/

/-- Counterexample to claim C7 as stated: a key absent from the snapshot
whose in-memory entry has an empty value and a past expiry — GET returns
Null but does not delete the entry (the empty-value check fires first). -/
theorem lazy_expiry_cex :
    get true (some (initRDB [])) [([97], KeyValue.mk [] (some (-5)))] 0
      [bulkValue [97]] =
      some (nullValue, [([97], KeyValue.mk [] (some (-5)))], some (initRDB [])) ∧
    (0 : Int) > -5 ∧
    alook [([97], KeyValue.mk [] (some (-5)))] [97] ≠ none := by
  refine ⟨rfl, by omega, by decide⟩

/-- Claim C7 (amended): for a key not resolvable from the snapshot whose
in-memory entry has a non-empty value — a past expiry makes GET delete the
entry and return Null; no expiry or a future expiry makes GET return the
stored value with the store unchanged. (An entry with an empty value
instead yields Null without any deletion.) -/
theorem lazy_expiry_on_read (writeOk : Bool) (bytes : Bytes) (store : Store)
    (now : Int) (key : Bytes) (m : Assoc) (v : Bytes)
    (hdec : readRDBFile now bytes = some m)
    (hmiss : alook m key = none ∨ alook m key = some [])
    (hv : v ≠ []) :
    (∀ e : Int, alook store key = some (KeyValue.mk v (some e)) → now > e →
      get writeOk (some bytes) store now [bulkValue key] =
        some (nullValue, adel store key, some bytes)) ∧
    (alook store key = some (KeyValue.mk v none) →
      get writeOk (some bytes) store now [bulkValue key] =
        some (bulkValue v, store, some bytes)) ∧
    (∀ e : Int, alook store key = some (KeyValue.mk v (some e)) → ¬ now > e →
      get writeOk (some bytes) store now [bulkValue key] =
        some (bulkValue v, store, some bytes)) := by
  refine ⟨fun e hmem hpast => ?_, fun hmem => ?_, fun e hmem hfut => ?_⟩
  · rw [get_miss writeOk bytes store now key m hdec hmiss,
      getMem_entry_expired store now key v e hmem hv hpast]
  · rw [get_miss writeOk bytes store now key m hdec hmiss,
      getMem_entry_none store now key v hmem hv]
  · rw [get_miss writeOk bytes store now key m hdec hmiss,
      getMem_entry_live store now key v e hmem hv hfut]

/-- Witness for the amended C7: a non-empty entry expired at time 10 is
deleted, and the same entry before its expiry is returned. -/
theorem lazy_expiry_on_read_w :
    get true (some (initRDB [])) [([107], KeyValue.mk [118] (some 5))] 10
      [bulkValue [107]] =
      some (nullValue, adel [([107], KeyValue.mk [118] (some 5))] [107],
        some (initRDB [])) ∧
    get true (some (initRDB [])) [([107], KeyValue.mk [118] (some 5))] 0
      [bulkValue [107]] =
      some (bulkValue [118], [([107], KeyValue.mk [118] (some 5))],
        some (initRDB [])) :=
  ⟨(lazy_expiry_on_read true (initRDB []) [([107], KeyValue.mk [118] (some 5))]
      10 [107] [] [118] rfl (Or.inl rfl) (by decide)).1 5 rfl (by omega),
   (lazy_expiry_on_read true (initRDB []) [([107], KeyValue.mk [118] (some 5))]
      0 [107] [] [118] rfl (Or.inl rfl) (by decide)).2.2 5 rfl (by omega)⟩

/-! ### Empty values read as absence (C9) -/

theorem getMem_no_empty_bulk (store : Store) (now : Int) (key : Bytes) :
    (getMem store now key).1.typ = "bulk" → (getMem store now key).1.bulk ≠ [] := by
  cases halook : alook store key with
  | none =>
      have hg : getMem store now key = (nullValue, store) := by
        simp [getMem, halook]
      rw [hg]
      intro h
      simp [nullValue] at h
  | some kv =>
      obtain ⟨v, exp⟩ := kv
      by_cases hv : v = []
      · have hg : getMem store now key = (nullValue, store) := by
          simp [getMem, halook, hv]
        rw [hg]
        intro h
        simp [nullValue] at h
      · cases exp with
        | none =>
            rw [getMem_entry_none store now key v halook hv]
            intro _
            simpa [bulkValue] using hv
        | some e =>
            by_cases hnow : now > e
            · rw [getMem_entry_expired store now key v e halook hv hnow]
              intro h
              simp [nullValue] at h
            · rw [getMem_entry_live store now key v e halook hv hnow]
              intro _
              simpa [bulkValue] using hv

theorem getWithData_no_empty_bulk (data : Assoc) (store : Store) (now : Int)
    (key : Bytes) :
    (getWithData data store now key).1.typ = "bulk" →
    (getWithData data store now key).1.bulk ≠ [] := by
  cases hd : alook data key with
  | none =>
      have hw : getWithData data store now key = getMem store now key := by
        simp [getWithData, hd]
      rw [hw]
      exact getMem_no_empty_bulk store now key
  | some v =>
      by_cases hv : v = []
      · have hw : getWithData data store now key = getMem store now key := by
          simp [getWithData, hd, hv]
        rw [hw]
        exact getMem_no_empty_bulk store now key
      · have hw : getWithData data store now key = (bulkValue v, store) := by
          simp [getWithData, hd, hv]
        rw [hw]
        intro _
        simpa [bulkValue] using hv

theorem get_no_empty_bulk (writeOk : Bool) (fs : Option Bytes) (store : Store)
    (now : Int) (args : List GoValue) (res : GoValue × Store × Option Bytes)
    (h : get writeOk fs store now args = some res) :
    res.1.typ = "bulk" → res.1.bulk ≠ [] := by
  simp only [get] at h
  cases hai : args.get? 0 with
  | none => simp only [hai] at h; cases h
  | some a0 =>
      simp only [hai] at h
      have main : ∀ bytes : Bytes,
          (match readRDBFile now bytes with
            | none => some (errValue errUnableMsg, store, some bytes)
            | some data =>
                some ((getWithData data store now a0.bulk).1,
                  (getWithData data store now a0.bulk).2, some bytes)) = some res →
          res.1.typ = "bulk" → res.1.bulk ≠ [] := by
        intro bytes hb
        cases hr : readRDBFile now bytes with
        | none =>
            simp only [hr, Option.some.injEq] at hb
            rw [← hb]
            intro hcon
            simp [errValue] at hcon
        | some data =>
            simp only [hr, Option.some.injEq] at hb
            rw [← hb]
            exact getWithData_no_empty_bulk data store now a0.bulk
      cases fs with
      | some bytes => exact main bytes h
      | none =>
          cases writeOk with
          | true => exact main (initRDB store) h
          | false =>
              have h2 : some (errValue errUnableMsg, store, (none : Option Bytes)) =
                  some res := h
              simp only [Option.some.injEq] at h2
              rw [← h2]
              intro hcon
              simp [errValue] at hcon

/-- Counterexample to claim C9 as stated: a key whose snapshot value is the
empty string but whose in-memory value is non-empty — GET returns the
in-memory bulk value, not Null. -/
theorem get_empty_value_cex :
    get true (some (initRDB [([97], KeyValue.mk [] none)]))
      [([97], KeyValue.mk [120] none)] 0 [bulkValue [97]] =
      some (bulkValue [120], [([97], KeyValue.mk [120] none)],
        some (initRDB [([97], KeyValue.mk [] none)])) ∧
    bulkValue [120] ≠ nullValue := by
  constructor
  · rfl
  · intro hcon
    simp [bulkValue, nullValue] at hcon

/-- Claim C9 (amended): GET treats an empty stored value as absence level by
level — an empty or absent snapshot value falls through to the in-memory
store, an empty or absent in-memory value then yields Null, and GET never
returns an empty bulk string. -/
theorem get_empty_as_absent :
    (∀ (writeOk : Bool) (bytes : Bytes) (store : Store) (now : Int) (key : Bytes)
        (m : Assoc), readRDBFile now bytes = some m →
        (alook m key = none ∨ alook m key = some []) →
        ((alook store key).getD (KeyValue.mk [] none)).value = [] →
        get writeOk (some bytes) store now [bulkValue key] =
          some (nullValue, store, some bytes)) ∧
    (∀ (writeOk : Bool) (fs : Option Bytes) (store : Store) (now : Int)
        (args : List GoValue) (res : GoValue × Store × Option Bytes),
        get writeOk fs store now args = some res →
        res.1.typ = "bulk" → res.1.bulk ≠ []) := by
  constructor
  · intro writeOk bytes store now key m hdec hmiss hempty
    rw [get_miss writeOk bytes store now key m hdec hmiss]
    have hg : getMem store now key = (nullValue, store) := by
      simp only [getMem]
      rw [if_pos hempty]
    rw [hg]
  · exact fun writeOk fs store now args res h =>
      get_no_empty_bulk writeOk fs store now args res h

/-- Witness for the amended C9: a key empty in the snapshot and absent from
memory yields Null. -/
theorem get_empty_as_absent_w :
    get true (some (initRDB [([97], KeyValue.mk [] none)])) [] 0 [bulkValue [97]] =
      some (nullValue, [], some (initRDB [([97], KeyValue.mk [] none)])) :=
  get_empty_as_absent.1 true (initRDB [([97], KeyValue.mk [] none)]) [] 0 [97]
    [([97], [])] rfl (Or.inr rfl) rfl

/-! ### GET precedence (C2) -/

/-- Claim C2: GET precedence — with the file absent GET first creates the
snapshot from the current store; a key present in the decoded snapshot with
a non-empty value is answered from the snapshot regardless of the store;
only otherwise does GET fall back to the in-memory store; hence after a
save of the store, a SET to the key without a further save leaves GET
returning the stale snapshot value. -/
theorem get_snapshot_precedence :
    (∀ (store : Store) (now : Int) (args : List GoValue),
        get true none store now args =
          get true (some (initRDB store)) store now args) ∧
    (∀ (writeOk : Bool) (bytes : Bytes) (store : Store) (now : Int) (key : Bytes)
        (m : Assoc) (v : Bytes), readRDBFile now bytes = some m →
        alook m key = some v → v ≠ [] →
        get writeOk (some bytes) store now [bulkValue key] =
          some (bulkValue v, store, some bytes)) ∧
    (∀ (writeOk : Bool) (bytes : Bytes) (store : Store) (now : Int) (key : Bytes)
        (m : Assoc), readRDBFile now bytes = some m →
        (alook m key = none ∨ alook m key = some []) →
        get writeOk (some bytes) store now [bulkValue key] =
          some ((getMem store now key).1, (getMem store now key).2, some bytes)) ∧
    (∀ (store store2 : Store) (now now2 : Int) (key v v2 : Bytes) (reply : GoValue),
        (∀ p ∈ store, entryWF now p) → (store.map Prod.fst).Nodup →
        store.length ≤ 255 →
        alook store key = some (KeyValue.mk v none) → v ≠ [] →
        set store now2 [bulkValue key, bulkValue v2] = some (reply, store2) →
        get true (some (initRDB store)) store2 now [bulkValue key] =
          some (bulkValue v, store2, some (initRDB store))) := by
  refine ⟨fun store now args => rfl, ?_, ?_, ?_⟩
  · exact fun writeOk bytes store now key m v hdec hvk hne =>
      get_hit writeOk bytes store now key m v hdec hvk hne
  · exact fun writeOk bytes store now key m hdec hmiss =>
      get_miss writeOk bytes store now key m hdec hmiss
  · intro store store2 now now2 key v v2 reply hwf hnd h255 hmem hne _hset
    have hdec := readRDBFile_initRDB now store hwf hnd h255
    have hvk : alook (store.map (fun p => (p.1, p.2.value))) key = some v := by
      rw [alook_map_value, hmem]
      rfl
    exact get_hit true (initRDB store) store2 now key _ v hdec hvk hne

/-- Witness for C2: save a one-entry store, overwrite the key in memory via
SET, and observe GET still answering the stale snapshot value. -/
theorem get_snapshot_precedence_w :
    get true (some (initRDB [([107], KeyValue.mk [118] none)]))
      [([107], KeyValue.mk [119] none)] 0 [bulkValue [107]] =
      some (bulkValue [118], [([107], KeyValue.mk [119] none)],
        some (initRDB [([107], KeyValue.mk [118] none)])) :=
  get_snapshot_precedence.2.2.2 [([107], KeyValue.mk [118] none)]
    [([107], KeyValue.mk [119] none)] 0 0 [107] [118] [119] (strValue okBytes)
    (by
      intro p hp
      simp only [List.mem_singleton] at hp
      subst hp
      exact ⟨by simp, by simp, by simp, trivial⟩)
    (by simp) (by simp) rfl (by decide) rfl

end CacheSystem
